import Mathlib

/-!
# Verification of the investWin analytics core

A shallow embedding, over `ℚ`, of the analytics functions of the investWin
repository (the risk engine, the opportunity detectors, the alert system, the
cache access pattern and the frontend portfolio statistics), together with
proofs and refutations of the specified properties.

Numeric values are embedded as rationals; Python's `ZeroDivisionError` (a
float or int division whose denominator is zero) and `ValueError` (`max` of an
empty collection) are embedded as `Except.error`, so that an uncaught numeric
exception escaping a computation is visible in the result type.
-/

/-! ## Percentiles (numpy `np.percentile`, linear interpolation) -/

/-- Floor of a nonnegative rational as a natural number (`q.num.toNat / q.den`);
used to embed the integral part of numpy's virtual percentile index. -/
def natFloorQ (q : ℚ) : ℕ := q.num.toNat / q.den

/-- The list sorted ascending, as numpy sorts the data before interpolating.
For rationals the ascending reordering is unique, so any correct sort embeds
numpy's. -/
def sortedQ (xs : List ℚ) : List ℚ := List.insertionSort (· ≤ ·) xs

/-- Linear interpolation of a sorted list at a fractional position `pos`:
`s[⌊pos⌋] + (pos − ⌊pos⌋) · (s[⌊pos⌋+1] − s[⌊pos⌋])`, the value at `⌊pos⌋`
when `⌊pos⌋ + 1` is out of range. -/
def interpQ (s : List ℚ) (pos : ℚ) : ℚ :=
  let i := natFloorQ pos
  let a := s.getD i 0
  let b := s.getD (i + 1) a
  a + (pos - (i : ℚ)) * (b - a)

/-- Embeds `np.percentile(xs, q)` with its default linear interpolation:
sort ascending, take the virtual index `q/100 · (n−1)` and interpolate.
`0` on the empty list (numpy warns and yields nan there; no claim touches it). -/
def percentileQ (xs : List ℚ) (q : ℚ) : ℚ :=
  match xs with
  | [] => 0
  | _ :: _ => interpQ (sortedQ xs) (q * ((xs.length : ℚ) - 1) / 100)

/-! ## RiskEngine: VaR (`IndividualStockRisk.calculate_var`) -/

/-- The record `calculate_var` returns (the Chinese interpretation string of the
source is omitted; it carries no further numeric content). -/
structure VarResult where
  var_95 : ℚ
  var_99 : ℚ

/-- Embeds `IndividualStockRisk.calculate_var(price_data, confidence_level,
holding_period)`. The source first forms `returns = calculate_daily_returns(price_data)`
(a helper not defined in the repository's files); the embedding takes that daily
return series as its input, as the claims quantify over it. The source computes
`var_percentile = (1 - confidence_level) * 100`, then
`var_value = np.percentile(returns, var_percentile) * holding_period` and
`var_99 = np.percentile(returns, 1) * holding_period` — a linear, not √, scaling
by the holding period. -/
def calculate_var (returns : List ℚ) (confidence_level : ℚ) (holding_period : ℚ) :
    VarResult :=
  let var_percentile := (1 - confidence_level) * 100
  let var_value := percentileQ returns var_percentile * holding_period
  ⟨var_value, percentileQ returns 1 * holding_period⟩

/-- A 21-session daily return series whose empirical 5th percentile is exactly
−0.032 (sorted, the virtual index of the 5th percentile is `5/100·20 = 1`, so the
percentile is the second smallest value, −4/125 = −0.032). -/
def c1Returns : List ℚ := [-1/20, -4/125] ++ List.replicate 19 (1/100)

/-! ## RiskEngine: concentration (`PortfolioRiskManager.calculate_concentration_risk`) -/

/-- A portfolio position as `calculate_concentration_risk` reads it: the
`symbol` and `market_value` entries of the position dict (the other entries of
the source's position records are not read by the embedded functions). -/
structure Position where
  symbol : String
  market_value : ℚ

/-- The Python exceptions that the embedded computations can let escape:
`ZeroDivisionError` from an unguarded division, `ValueError` from `max()` of an
empty collection, `IndexError` from indexing past the ends of a list. -/
inductive CalcError where
  | divByZero : CalcError
  | emptyMax : CalcError
  | indexOut : CalcError
deriving DecidableEq

/-- `total_value = sum(pos['market_value'] for pos in portfolio_positions)`. -/
def total_value (ps : List Position) : ℚ := (ps.map Position.market_value).sum

/-- One Python dict assignment `d[k] = v`: replace the value of an existing key
in place, else append the new binding (Python dicts keep insertion order). -/
def dict_update (d : List (String × ℚ)) (k : String) (v : ℚ) : List (String × ℚ) :=
  if d.any (fun p => p.1 == k) then d.map (fun p => if p.1 == k then (k, v) else p)
  else d ++ [(k, v)]

/-- The source's `stock_concentration` dict: for each position in order,
`stock_concentration[pos['symbol']] = pos['market_value'] / total_value` —
a position with a repeated symbol overwrites the earlier weight. -/
def stock_concentration (ps : List Position) : List (String × ℚ) :=
  ps.foldl (fun d pos => dict_update d pos.symbol (pos.market_value / total_value ps)) []

/-- Maximum of a list of rationals; `0` on the empty list (unreachable where used:
the source's `max(stock_concentration.values())` raises `ValueError` there, which
the embedding surfaces as `CalcError.emptyMax` before this is evaluated). -/
def listMaxQ : List ℚ → ℚ
  | [] => 0
  | x :: xs => xs.foldl max x

/-- The record `calculate_concentration_risk` returns. -/
structure ConcentrationResult where
  concentration_risk : String
  herfindahl_index : ℚ
  top_position_weight : ℚ
  diversification_score : ℚ
deriving DecidableEq

/-- The source's classification chain:
`'high' if hhi > 0.25 else 'medium' if hhi > 0.15 else 'low'`. -/
def concentration_bucket (hhi : ℚ) : String :=
  if 1/4 < hhi then "high" else if 3/20 < hhi then "medium" else "low"

/-- Embeds `PortfolioRiskManager.calculate_concentration_risk(portfolio_positions)`.
The source divides each `market_value` by `total_value` with no guard: a nonempty
portfolio of total value zero raises `ZeroDivisionError` at the first division,
and an empty portfolio reaches `max(stock_concentration.values())`, which raises
`ValueError`; both escapes are embedded as `Except.error`. -/
def calculate_concentration_risk (ps : List Position) :
    Except CalcError ConcentrationResult :=
  if ps.isEmpty then Except.error CalcError.emptyMax
  else if total_value ps = 0 then Except.error CalcError.divByZero
  else
    let conc := stock_concentration ps
    let hhi := (conc.map (fun p => p.2 ^ 2)).sum
    Except.ok ⟨concentration_bucket hhi, hhi, listMaxQ (conc.map Prod.snd), 1 - hhi⟩

/-- Follows the spec's words, for comparison with the source's dict-based value:
"weight_i = position_i market value / total portfolio value; Herfindahl index =
Σ weight_i²" — the sum of squared weights over the positions themselves. -/
def spec_sum_squared_weights (ps : List Position) : ℚ :=
  (ps.map (fun p => (p.market_value / total_value ps) ^ 2)).sum

/-- Four equal $25k positions of a $100k portfolio. -/
def fourEqualPositions : List Position :=
  [⟨"AAPL", 25000⟩, ⟨"MSFT", 25000⟩, ⟨"GOOG", 25000⟩, ⟨"AMZN", 25000⟩]

/-- Two positions in the same symbol, each half the portfolio. -/
def dupPositions : List Position := [⟨"AAPL", 50⟩, ⟨"AAPL", 50⟩]

/-! ## OpportunityDetector: volume anomalies (`detect_volume_anomalies`) -/

/-- A session of the price series as the detectors read it: the `close` and
`volume` entries (`date`, `open`, `high`, `low` are not read by the embedded
functions). -/
structure PricePoint where
  close : ℚ
  volume : ℚ

/-- Modelled from the spec: `calculate_avg_volume(stock_data, n)` is called by
`detect_volume_anomalies` but not defined in the repository's files; per the
spec's "avg_volume(20)" and the repository's SQL `ma20` window (`19 PRECEDING
AND CURRENT ROW`) it is the arithmetic mean of the trailing `n` session volumes
(of all sessions when fewer than `n` exist). -/
def calculate_avg_volume (data : List PricePoint) (n : ℕ) : ℚ :=
  let vs := (data.map PricePoint.volume).drop (data.length - n)
  vs.sum / (vs.length : ℚ)

/-- The source's `volume_ratio = current_volume / avg_volume_20d` with
`current_volume = stock_data[-1]['volume']`. -/
def volume_ratio (data : List PricePoint) : ℚ :=
  (data.map PricePoint.volume).getLastD 0 / calculate_avg_volume data 20

/-- The source's `price_change = (stock_data[-1]['close'] - stock_data[-2]['close'])
/ stock_data[-2]['close']`. -/
def price_change (data : List PricePoint) : ℚ :=
  ((data.map PricePoint.close).getLastD 0 -
      (data.map PricePoint.close).getD (data.length - 2) 0) /
    (data.map PricePoint.close).getD (data.length - 2) 0

/-- The opportunity dict `detect_volume_anomalies` appends:
`{'type', 'volume_ratio', 'price_change', 'strength'}`. -/
structure VolOpportunity where
  otype : String
  strength : String
  volume_ratio : ℚ
  price_change : ℚ
deriving DecidableEq

/-- Embeds `detect_volume_anomalies(stock_data)`. The source indexes
`stock_data[-1]` and `stock_data[-2]` (an `IndexError` escape below two sessions),
divides by `avg_volume_20d` and by `stock_data[-2]['close']` with no guards
(`ZeroDivisionError` escapes when either is zero; the unused `avg_volume_5d` of
the source is dropped), then appends one `volume_surge_up` opportunity when
`volume_ratio > 3 and price_change > 0.05`, of strength
`'strong' if volume_ratio > 5 else 'moderate'`. -/
def detect_volume_anomalies (data : List PricePoint) :
    Except CalcError (List VolOpportunity) :=
  if data.length < 2 then Except.error CalcError.indexOut
  else if calculate_avg_volume data 20 = 0 then Except.error CalcError.divByZero
  else if (data.map PricePoint.close).getD (data.length - 2) 0 = 0 then
    Except.error CalcError.divByZero
  else if 3 < volume_ratio data ∧ 1/20 < price_change data then
    Except.ok [⟨"volume_surge_up",
      if 5 < volume_ratio data then "strong" else "moderate",
      volume_ratio data, price_change data⟩]
  else Except.ok []

/-- A 25-session series: 24 sessions of volume 1600, a final session of volume
7600 and close 106 after a close of 100. Its 20-day average volume is
`(19·1600 + 7600)/20 = 1900`, so the final volume is 4 times the average, and the
final-session return is +6%. -/
def surge4Series : List PricePoint := List.replicate 24 ⟨100, 1600⟩ ++ [⟨106, 7600⟩]

/-- As `surge4Series` with volumes 1400 and 11400: the 20-day average volume is
`(19·1400 + 11400)/20 = 1900`, the final volume 6 times the average, return +6%. -/
def surge6Series : List PricePoint := List.replicate 24 ⟨100, 1400⟩ ++ [⟨106, 11400⟩]

/-- Two sessions of volume zero: the 20-day average volume is zero. -/
def zeroVolumeSeries : List PricePoint := [⟨100, 0⟩, ⟨100, 0⟩]

/-! ## AlertEngine (`RiskAlertSystem`) -/

/-- The `price_drop_alert` entry of the default rule dict. -/
structure PriceDropRule where
  threshold : ℚ
  timeframe : String
  priority : String

/-- The `volatility_spike` entry of the default rule dict. -/
structure VolatilitySpikeRule where
  threshold : ℚ
  baseline_window : ℕ
  priority : String

/-- The `volume_anomaly` entry of the default rule dict. -/
structure VolumeAnomalyRule where
  threshold : ℚ
  priority : String

/-- The `correlation_increase` entry of the default rule dict. -/
structure CorrelationRule where
  threshold : ℚ
  priority : String

/-- The rule dict `RiskAlertSystem.load_default_rules` returns. -/
structure AlertRules where
  price_drop_alert : PriceDropRule
  volatility_spike : VolatilitySpikeRule
  volume_anomaly : VolumeAnomalyRule
  correlation_increase : CorrelationRule

/-- Embeds `RiskAlertSystem.load_default_rules`: price drop −0.15 (high),
volatility 3.0 over a 20-session baseline (medium), volume 5.0 (medium),
correlation 0.8 (low). -/
def load_default_rules : AlertRules :=
  ⟨⟨-(3/20), "daily", "high"⟩, ⟨3, 20, "medium"⟩, ⟨5, "medium"⟩, ⟨4/5, "low"⟩⟩

/-- One emitted alert: its `type` and `severity` (the message and suggestion
strings of the source are fixed templates carrying no further logic). -/
structure Alert where
  atype : String
  severity : String
deriving DecidableEq

/-- Embeds `RiskAlertSystem.check_risk_alerts(asset_data, portfolio_data)`.
The snapshot values the source obtains through its helper methods
(`calculate_price_change`, `calculate_current_volatility`,
`calculate_average_volatility(asset_data, 20)` — none defined in the
repository's files) are taken as inputs: the day-over-day price change, the
current volatility and its 20-session baseline average. The source appends a
`price_drop` alert of severity `high` when `price_change <= threshold` and a
`volatility_spike` alert of severity `medium` when
`current_vol > avg_vol * threshold`. -/
def check_risk_alerts (rules : AlertRules) (price_change_v current_vol avg_vol : ℚ) :
    List Alert :=
  (if price_change_v ≤ rules.price_drop_alert.threshold then
    [⟨"price_drop", "high"⟩] else []) ++
  (if avg_vol * rules.volatility_spike.threshold < current_vol then
    [⟨"volatility_spike", "medium"⟩] else [])

/-! ## OpportunityDetector: oversold/overbought
(`detect_oversold_overbought_opportunities`) -/

/-- The Bollinger-band dict `calculate_bollinger_bands(stock_data, 20, 2)` yields. -/
structure BollingerBands where
  upper_band : ℚ
  middle_band : ℚ
  lower_band : ℚ

/-- The opportunity dict the oversold branch appends: `{'type', 'rsi',
'price_position'}` (the `potential_upside` entry comes from a helper absent from
the repository's files and carries no branching logic; it is omitted). -/
structure TechOpportunity where
  otype : String
  rsi : ℚ
  price_position : String
deriving DecidableEq

/-- Embeds `detect_oversold_overbought_opportunities(stock_data)`. The indicator
values the source obtains from `calculate_rsi(stock_data, 14)` and
`calculate_bollinger_bands(stock_data, 20, 2)` (helpers absent from the
repository's files) are taken as inputs together with the latest close. The
source's only branch appends an `oversold_bounce` opportunity when
`rsi < 30 and current_price <= bollinger_bands['lower_band']`; it has no
overbought branch. -/
def detect_oversold_overbought_opportunities (rsi : ℚ) (bands : BollingerBands)
    (current_price : ℚ) : List TechOpportunity :=
  if rsi < 30 ∧ current_price ≤ bands.lower_band then
    [⟨"oversold_bounce", rsi, "below_lower_band"⟩]
  else []

/-! ## OpportunityDetector: option volatility
(`detect_option_volatility_opportunities`) -/

/-- The opportunity dict the undervalued branch appends: `{'type', 'strategy',
'iv_ratio'}`. -/
structure OptionOpportunity where
  otype : String
  strategy : String
  iv_ratio : ℚ
deriving DecidableEq

/-- Embeds `detect_option_volatility_opportunities(option_chain)`. The values the
source obtains from `calculate_iv_skew(option_chain)`,
`calculate_historical_volatility(underlying_stock, 30)` and
`calculate_average_iv(option_chain)` (helpers absent from the repository's files;
`underlying_stock` is a free name there, taken here as the underlying's data
summarised by its historical volatility) are taken as inputs. The source's only
branch appends an `iv_undervalued` opportunity when
`avg_iv < historical_vol * 0.8`, of strategy
`'long_straddle' if iv_skew < 0 else 'long_calendar'`; it has no overvalued
branch. -/
def detect_option_volatility_opportunities (iv_skew avg_iv historical_vol : ℚ) :
    List OptionOpportunity :=
  if avg_iv < historical_vol * (4/5) then
    [⟨"iv_undervalued", if iv_skew < 0 then "long_straddle" else "long_calendar",
      avg_iv / historical_vol⟩]
  else []

/-! ## The cache access pattern (`analyze_opportunities`,
`MarketDataService.get_real_time_price`)

Both cited functions follow the same unsynchronized pattern over the shared
cache: read the key; on a hit return the cached value; on a miss run the
computation, write its result, return it. The interleaving of several callers
is embedded as a small-step system: each caller is at program counter 0 (about
to read), 1 (has observed a miss, about to compute and write) or 2 (done), and
a schedule is a list of atomic steps naming the caller that moves. -/

/-- One atomic step of a caller: its cache read (`cached_result = await
cache.get(cache_key)` and the hit test), or its compute-and-write
(`... find_all_opportunities ...; await cache.set(...)`). -/
inductive CacheStep where
  | read : ℕ → CacheStep
  | computeWrite : ℕ → CacheStep
deriving DecidableEq

/-- One caller: its program counter and the value it returned (once done). -/
structure CallerState where
  pc : ℕ
  result : Option ℕ
deriving DecidableEq

/-- The shared cache, the callers, and how many times the underlying
computation has executed. -/
structure CacheSystem where
  cache : Option ℕ
  callers : List CallerState
  computations : ℕ
deriving DecidableEq

/-- The step relation of the get-or-compute pattern, as a function of the
scheduled step; `v` is the (deterministic) value the underlying computation
produces. A step naming an absent caller, or one not at the right program
counter, changes nothing. -/
def cacheStep (v : ℕ) (s : CacheSystem) : CacheStep → CacheSystem
  | CacheStep.read i =>
    match s.callers.get? i with
    | none => s
    | some c =>
      if c.pc = 0 then
        match s.cache with
        | some x => ⟨s.cache, s.callers.set i ⟨2, some x⟩, s.computations⟩
        | none => ⟨s.cache, s.callers.set i ⟨1, none⟩, s.computations⟩
      else s
  | CacheStep.computeWrite i =>
    match s.callers.get? i with
    | none => s
    | some c =>
      if c.pc = 1 then ⟨some v, s.callers.set i ⟨2, some v⟩, s.computations + 1⟩
      else s

/-- Run a schedule of steps from a state. -/
def runCache (v : ℕ) (s : CacheSystem) (steps : List CacheStep) : CacheSystem :=
  steps.foldl (cacheStep v) s

/-! ## Frontend portfolio statistics (`calculatePortfolioStats` of App.tsx) -/

/-- One row of the frontend's asset table: the fields `calculatePortfolioStats`
reads. -/
structure AssetRow where
  current_price : ℚ
  change : ℚ
  change_percent : ℚ

/-- The record `calculatePortfolioStats` returns. -/
structure PortfolioStats where
  totalValue : ℚ
  totalChange : ℚ
  changePercent : ℚ
deriving DecidableEq

/-- Embeds the frontend's `calculatePortfolioStats`: an explicit early return of
zeros for the empty asset list, else the sums of `current_price`, `change` and
`change_percent` each divided by the asset count (the source's `totalValue` and
`totalChange` sums are returned divided by `assets.length`). -/
def calculatePortfolioStats (assets : List AssetRow) : PortfolioStats :=
  if assets.length = 0 then ⟨0, 0, 0⟩
  else
    ⟨(assets.map AssetRow.current_price).sum / (assets.length : ℚ),
      (assets.map AssetRow.change).sum / (assets.length : ℚ),
      (assets.map AssetRow.change_percent).sum / (assets.length : ℚ)⟩

/-! ## Lemmas on `natFloorQ`, sorted lists and `percentileQ` -/

/-- The cast floor is below the rational it floors. -/
theorem natFloorQ_cast_le (q : ℚ) (h : 0 ≤ q) : (natFloorQ q : ℚ) ≤ q := by
  have hb : (0 : ℚ) < (q.den : ℚ) := by exact_mod_cast q.den_pos
  have ha : ((q.num.toNat : ℕ) : ℚ) = ((q.num : ℤ) : ℚ) := by
    exact_mod_cast Int.toNat_of_nonneg (Rat.num_nonneg.mpr h)
  have hq : ((q.num.toNat : ℕ) : ℚ) / ((q.den : ℕ) : ℚ) = q := by
    rw [ha]; exact Rat.num_div_den q
  have hnat : natFloorQ q * q.den ≤ q.num.toNat := Nat.div_mul_le_self _ _
  calc (natFloorQ q : ℚ)
      ≤ ((q.num.toNat : ℕ) : ℚ) / ((q.den : ℕ) : ℚ) := by
        rw [le_div_iff₀ hb]; exact_mod_cast hnat
    _ = q := hq

/-- A nonnegative rational is below its floor plus one. -/
theorem lt_natFloorQ_add_one (q : ℚ) (h : 0 ≤ q) : q < (natFloorQ q : ℚ) + 1 := by
  have hbn : 0 < q.den := q.den_pos
  have hb : (0 : ℚ) < (q.den : ℚ) := by exact_mod_cast hbn
  have ha : ((q.num.toNat : ℕ) : ℚ) = ((q.num : ℤ) : ℚ) := by
    exact_mod_cast Int.toNat_of_nonneg (Rat.num_nonneg.mpr h)
  have hq : ((q.num.toNat : ℕ) : ℚ) / ((q.den : ℕ) : ℚ) = q := by
    rw [ha]; exact Rat.num_div_den q
  have key : q.num.toNat < (natFloorQ q + 1) * q.den := by
    have h1 : q.num.toNat % q.den < q.den := Nat.mod_lt _ hbn
    have h2 := Nat.div_add_mod q.num.toNat q.den
    have h3 : natFloorQ q = q.num.toNat / q.den := rfl
    calc q.num.toNat
        = q.den * (q.num.toNat / q.den) + q.num.toNat % q.den := h2.symm
      _ < q.den * (q.num.toNat / q.den) + q.den := Nat.add_lt_add_left h1 _
      _ = (q.num.toNat / q.den + 1) * q.den := by ring
      _ = (natFloorQ q + 1) * q.den := by rw [h3]
  calc q = ((q.num.toNat : ℕ) : ℚ) / ((q.den : ℕ) : ℚ) := hq.symm
    _ < (natFloorQ q : ℚ) + 1 := by
        rw [div_lt_iff₀ hb]; exact_mod_cast key

/-- `natFloorQ` is monotone on nonnegative rationals. -/
theorem natFloorQ_mono {p1 p2 : ℚ} (h0 : 0 ≤ p1) (h12 : p1 ≤ p2) :
    natFloorQ p1 ≤ natFloorQ p2 := by
  have h02 : 0 ≤ p2 := le_trans h0 h12
  have h : (natFloorQ p1 : ℚ) < (natFloorQ p2 : ℚ) + 1 :=
    lt_of_le_of_lt (le_trans (natFloorQ_cast_le p1 h0) h12) (lt_natFloorQ_add_one p2 h02)
  have h2 : natFloorQ p1 < natFloorQ p2 + 1 := by exact_mod_cast h
  omega

/-- The floor of a position bounded by `n − 1` is an index below `n`. -/
theorem natFloorQ_lt_of_le {p : ℚ} {n : ℕ} (h0 : 0 ≤ p) (h : p ≤ (n : ℚ) - 1) :
    natFloorQ p < n := by
  have h1 : (natFloorQ p : ℚ) ≤ (n : ℚ) - 1 := le_trans (natFloorQ_cast_le p h0) h
  have h2 : (natFloorQ p : ℚ) < (n : ℚ) := by linarith
  exact_mod_cast h2

/-- In a sorted list the entry at a smaller in-range index is not larger. -/
theorem sorted_getD_mono : ∀ (l : List ℚ), l.Sorted (· ≤ ·) →
    ∀ i j : ℕ, i ≤ j → j < l.length → l.getD i 0 ≤ l.getD j 0
  | [], _, _, j, _, hj => by simp at hj
  | a :: t, _, 0, 0, _, _ => le_refl _
  | a :: t, hl, 0, j + 1, _, hj => by
    rcases List.sorted_cons.mp hl with ⟨ha, _⟩
    simp only [List.getD_cons_zero, List.getD_cons_succ]
    have hjlen : j < t.length := by simpa using hj
    rw [List.getD_eq_getElem t 0 hjlen]
    exact ha _ (List.getElem_mem hjlen)
  | a :: t, hl, i + 1, 0, hij, _ => absurd hij (by omega)
  | a :: t, hl, i + 1, j + 1, hij, hj => by
    rcases List.sorted_cons.mp hl with ⟨_, ht⟩
    simp only [List.getD_cons_succ]
    exact sorted_getD_mono t ht i j (by omega) (by simpa using hj)

/-- In a sorted list, the successor entry (with the current one as default) is
not smaller. -/
theorem getD_succ_self_le (s : List ℚ) (hs : s.Sorted (· ≤ ·)) (i : ℕ)
    (hi : i < s.length) : s.getD i 0 ≤ s.getD (i + 1) (s.getD i 0) := by
  by_cases h : i + 1 < s.length
  · rw [List.getD_eq_getElem s (s.getD i 0) h]
    have h2 := sorted_getD_mono s hs i (i + 1) (by omega) h
    rwa [List.getD_eq_getElem s 0 h] at h2
  · rw [List.getD_eq_default s (s.getD i 0) (by omega)]

/-- The interpolated value is at least the cell's left endpoint. -/
theorem interpQ_ge_left (s : List ℚ) (hs : s.Sorted (· ≤ ·)) (p : ℚ)
    (h0 : 0 ≤ p) (hn : p ≤ (s.length : ℚ) - 1) :
    s.getD (natFloorQ p) 0 ≤ interpQ s p := by
  have hi : natFloorQ p < s.length := natFloorQ_lt_of_le h0 hn
  have hg : 0 ≤ p - (natFloorQ p : ℚ) := by
    have := natFloorQ_cast_le p h0; linarith
  have hab := getD_succ_self_le s hs (natFloorQ p) hi
  simp only [interpQ]
  have hmul : 0 ≤ (p - (natFloorQ p : ℚ)) *
      (s.getD (natFloorQ p + 1) (s.getD (natFloorQ p) 0) - s.getD (natFloorQ p) 0) :=
    mul_nonneg hg (by linarith)
  linarith

/-- The interpolated value is at most the cell's right endpoint. -/
theorem interpQ_le_right (s : List ℚ) (hs : s.Sorted (· ≤ ·)) (p : ℚ)
    (h0 : 0 ≤ p) (hn : p ≤ (s.length : ℚ) - 1) :
    interpQ s p ≤ s.getD (natFloorQ p + 1) (s.getD (natFloorQ p) 0) := by
  have hi : natFloorQ p < s.length := natFloorQ_lt_of_le h0 hn
  have hg1 : p - (natFloorQ p : ℚ) ≤ 1 := by
    have := lt_natFloorQ_add_one p h0; linarith
  have hab := getD_succ_self_le s hs (natFloorQ p) hi
  simp only [interpQ]
  have h2 : (p - (natFloorQ p : ℚ)) *
      (s.getD (natFloorQ p + 1) (s.getD (natFloorQ p) 0) - s.getD (natFloorQ p) 0) ≤
      s.getD (natFloorQ p + 1) (s.getD (natFloorQ p) 0) - s.getD (natFloorQ p) 0 :=
    mul_le_of_le_one_left (by linarith) hg1
  linarith

/-- Interpolation over a sorted list is monotone in the position. -/
theorem interpQ_mono (s : List ℚ) (hs : s.Sorted (· ≤ ·)) (p1 p2 : ℚ)
    (h0 : 0 ≤ p1) (h12 : p1 ≤ p2) (hn : p2 ≤ (s.length : ℚ) - 1) :
    interpQ s p1 ≤ interpQ s p2 := by
  have h02 : 0 ≤ p2 := le_trans h0 h12
  have hn1 : p1 ≤ (s.length : ℚ) - 1 := le_trans h12 hn
  have hi12 : natFloorQ p1 ≤ natFloorQ p2 := natFloorQ_mono h0 h12
  have hlen2 : natFloorQ p2 < s.length := natFloorQ_lt_of_le h02 hn
  rcases eq_or_lt_of_le hi12 with heq | hlt
  · have hlen1 : natFloorQ p1 < s.length := heq ▸ hlen2
    have hab := getD_succ_self_le s hs (natFloorQ p1) hlen1
    simp only [interpQ, ← heq]
    have hmul : (p1 - (natFloorQ p1 : ℚ)) *
        (s.getD (natFloorQ p1 + 1) (s.getD (natFloorQ p1) 0) - s.getD (natFloorQ p1) 0) ≤
        (p2 - (natFloorQ p1 : ℚ)) *
        (s.getD (natFloorQ p1 + 1) (s.getD (natFloorQ p1) 0) - s.getD (natFloorQ p1) 0) :=
      mul_le_mul_of_nonneg_right (by linarith) (by linarith)
    linarith
  · have hsucc : natFloorQ p1 + 1 < s.length := by omega
    have step1 : interpQ s p1 ≤ s.getD (natFloorQ p1 + 1) (s.getD (natFloorQ p1) 0) :=
      interpQ_le_right s hs p1 h0 hn1
    have step2 : s.getD (natFloorQ p1 + 1) (s.getD (natFloorQ p1) 0) =
        s.getD (natFloorQ p1 + 1) 0 := by
      rw [List.getD_eq_getElem s _ hsucc, List.getD_eq_getElem s 0 hsucc]
    have step3 : s.getD (natFloorQ p1 + 1) 0 ≤ s.getD (natFloorQ p2) 0 :=
      sorted_getD_mono s hs _ _ (by omega) hlen2
    have step4 : s.getD (natFloorQ p2) 0 ≤ interpQ s p2 :=
      interpQ_ge_left s hs p2 h02 hn
    linarith

/-- The empirical percentile is monotone in the percentile rank. -/
theorem percentileQ_mono (xs : List ℚ) (q1 q2 : ℚ) (h0 : 0 ≤ q1) (h12 : q1 ≤ q2)
    (h100 : q2 ≤ 100) : percentileQ xs q1 ≤ percentileQ xs q2 := by
  match xs with
  | [] => simp [percentileQ]
  | x :: t =>
    simp only [percentileQ]
    have hslen : (sortedQ (x :: t)).length = (x :: t).length :=
      (List.perm_insertionSort _ _).length_eq
    have hlen1 : (1 : ℚ) ≤ ((x :: t).length : ℚ) := by
      have h : 1 ≤ (x :: t).length := by simp
      exact_mod_cast h
    have hnn : (0 : ℚ) ≤ ((x :: t).length : ℚ) - 1 := by linarith
    apply interpQ_mono
    · exact List.sorted_insertionSort _ _
    · positivity
    · apply div_le_div_of_nonneg_right ?_ (by norm_num)
      exact mul_le_mul_of_nonneg_right h12 hnn
    · rw [hslen, div_le_iff₀ (by norm_num : (0:ℚ) < 100)]
      calc q2 * (((x :: t).length : ℚ) - 1) ≤ 100 * (((x :: t).length : ℚ) - 1) :=
            mul_le_mul_of_nonneg_right h100 hnn
        _ = (((x :: t).length : ℚ) - 1) * 100 := by ring

/-! ## Claim C1: VaR scaling -/

/-- C1 (amended): `calculate_var` scales the empirical percentile linearly by the
holding period, not by its square root: the VaR at confidence `c` is the
`(1−c)·100`th percentile of the daily returns multiplied by `holding_period`, and
`var_99` is the 1st percentile so multiplied. On the 21-session return series
whose 5th percentile is −0.032, the 1-day VaR_95 is −0.032 and the 5-day VaR_95
is −0.032·5 = −0.16. -/
theorem calculate_var_scales_linearly (returns : List ℚ) (c h : ℚ) :
    (calculate_var returns c h).var_95 = percentileQ returns ((1 - c) * 100) * h ∧
    (calculate_var returns c h).var_99 = percentileQ returns 1 * h ∧
    percentileQ c1Returns 5 = -4/125 ∧
    (calculate_var c1Returns (95/100) 1).var_95 = -4/125 ∧
    (calculate_var c1Returns (95/100) 5).var_95 = -4/125 * 5 := by
  refine ⟨rfl, rfl, ?_, ?_, ?_⟩ <;>
    norm_num [calculate_var, c1Returns, percentileQ, sortedQ, interpQ, natFloorQ,
      List.insertionSort, List.orderedInsert, List.replicate, List.getD]

/-- C1 counterexample: on the return series whose empirical 5th percentile is
−0.032 and a 5-day holding period, the source's VaR_95 is −0.032·5 = −0.16,
which differs from the claimed −0.032·√5. -/
theorem calculate_var_not_sqrt_scaled :
    percentileQ c1Returns 5 = -4/125 ∧
    (calculate_var c1Returns (95/100) 5).var_95 = -4/25 ∧
    ((calculate_var c1Returns (95/100) 5).var_95 : ℝ) ≠
      ((percentileQ c1Returns 5 : ℚ) : ℝ) * Real.sqrt 5 := by
  have h1 : percentileQ c1Returns 5 = -4/125 := by
    norm_num [c1Returns, percentileQ, sortedQ, interpQ, natFloorQ,
      List.insertionSort, List.orderedInsert, List.replicate, List.getD]
  have h2 : (calculate_var c1Returns (95/100) 5).var_95 = -4/25 := by
    norm_num [calculate_var, c1Returns, percentileQ, sortedQ, interpQ, natFloorQ,
      List.insertionSort, List.orderedInsert, List.replicate, List.getD]
  refine ⟨h1, h2, ?_⟩
  rw [h1, h2]
  push_cast
  intro heq
  have h5 : Real.sqrt 5 < 5 := by
    rw [Real.sqrt_lt' (by norm_num)]
    norm_num
  linarith

/-! ## Claim C2: |var_99| ≥ |var_95| -/

/-- C2 (amended): with the source's default confidence 0.95, whenever the
empirical 5th percentile of the return series is nonpositive (the 95% tail is a
loss), `|var_99| ≥ |var_95|` for every holding period. -/
theorem var99_abs_ge_var95_of_nonpos (returns : List ℚ) (holding_period : ℚ)
    (h5 : percentileQ returns 5 ≤ 0) :
    |(calculate_var returns (95/100) holding_period).var_95| ≤
      |(calculate_var returns (95/100) holding_period).var_99| := by
  have hmono : percentileQ returns 1 ≤ percentileQ returns 5 :=
    percentileQ_mono returns 1 5 (by norm_num) (by norm_num) (by norm_num)
  have habs : |percentileQ returns 5| ≤ |percentileQ returns 1| :=
    abs_le_abs_of_nonpos h5 hmono
  have h95 : (calculate_var returns (95/100) holding_period).var_95 =
      percentileQ returns 5 * holding_period := by
    show percentileQ returns ((1 - 95/100) * 100) * holding_period = _
    norm_num
  have h99 : (calculate_var returns (95/100) holding_period).var_99 =
      percentileQ returns 1 * holding_period := rfl
  rw [h95, h99, abs_mul, abs_mul]
  exact mul_le_mul_of_nonneg_right habs (abs_nonneg _)

/-- C2 witness: the amended theorem applied to a concrete series with a
nonpositive 5th percentile and a 2-day holding period. -/
theorem var99_abs_ge_var95_witness :
    |(calculate_var [-1/10, 0, 1/10] (95/100) 2).var_95| ≤
      |(calculate_var [-1/10, 0, 1/10] (95/100) 2).var_99| :=
  var99_abs_ge_var95_of_nonpos [-1/10, 0, 1/10] 2 (by
    norm_num [percentileQ, sortedQ, interpQ, natFloorQ,
      List.insertionSort, List.orderedInsert, List.getD])

/-- C2 counterexample: on the all-positive return series [0.01, 0.02, 0.03] with
the default confidence and a 1-day holding period, `|var_99| < |var_95|`: the
claimed invariant fails. -/
theorem var99_abs_lt_var95_on_positive_returns :
    |(calculate_var [1/100, 2/100, 3/100] (95/100) 1).var_99| <
      |(calculate_var [1/100, 2/100, 3/100] (95/100) 1).var_95| := by
  have e99 : (calculate_var [1/100, 2/100, 3/100] (95/100) 1).var_99 = 51/5000 := by
    norm_num [calculate_var, percentileQ, sortedQ, interpQ, natFloorQ,
      List.insertionSort, List.orderedInsert, List.getD]
  have e95 : (calculate_var [1/100, 2/100, 3/100] (95/100) 1).var_95 = 11/1000 := by
    norm_num [calculate_var, percentileQ, sortedQ, interpQ, natFloorQ,
      List.insertionSort, List.orderedInsert, List.getD]
  rw [e99, e95, abs_of_pos (by norm_num), abs_of_pos (by norm_num)]
  norm_num

/-! ## Claim C3: concentration risk -/

/-- Folding the source's dict assignments over positions with pairwise-distinct
symbols, starting from a dict whose keys avoid those symbols, appends one binding
per position. -/
theorem foldl_dict_update_nodup (f : Position → ℚ) :
    ∀ (l : List Position) (d : List (String × ℚ)),
      (∀ p ∈ l, ∀ e ∈ d, e.1 ≠ p.symbol) → (l.map Position.symbol).Nodup →
      List.foldl (fun acc pos => dict_update acc pos.symbol (f pos)) d l =
        d ++ l.map (fun p => (p.symbol, f p))
  | [], d, _, _ => by simp
  | a :: t, d, hdisj, hnd => by
    have hfalse : d.any (fun e => e.1 == a.symbol) = false := by
      rw [List.any_eq_false]
      intro e he
      simpa using hdisj a (by simp) e he
    have hupd : dict_update d a.symbol (f a) = d ++ [(a.symbol, f a)] := by
      rw [dict_update, hfalse]
      simp
    have hsplit : (∀ x ∈ t, ¬x.symbol = a.symbol) ∧
        (List.map Position.symbol t).Nodup := by simpa using hnd
    rcases hsplit with ⟨hmem, hnd'⟩
    have hdisj' : ∀ p ∈ t, ∀ e ∈ d ++ [(a.symbol, f a)], e.1 ≠ p.symbol := by
      intro p hp e he
      rcases List.mem_append.mp he with he | he
      · exact hdisj p (by simp [hp]) e he
      · have he2 : e = (a.symbol, f a) := by simpa using he
        rw [he2]
        intro hcontra
        have hae : a.symbol = p.symbol := by simpa using hcontra
        exact hmem p hp hae.symm
    calc List.foldl (fun acc pos => dict_update acc pos.symbol (f pos)) d (a :: t)
        = List.foldl (fun acc pos => dict_update acc pos.symbol (f pos))
            (d ++ [(a.symbol, f a)]) t := by rw [List.foldl_cons, hupd]
      _ = (d ++ [(a.symbol, f a)]) ++ t.map (fun p => (p.symbol, f p)) :=
          foldl_dict_update_nodup f t (d ++ [(a.symbol, f a)]) hdisj' hnd'
      _ = d ++ (a :: t).map (fun p => (p.symbol, f p)) := by simp

/-- A list of nonnegative rationals has its sum of squares bounded by the square
of its sum. -/
theorem sum_map_sq_le_sq_sum : ∀ (l : List ℚ), (∀ x ∈ l, 0 ≤ x) →
    (l.map (fun x => x ^ 2)).sum ≤ l.sum ^ 2
  | [], _ => by simp
  | a :: t, h => by
    simp only [List.map_cons, List.sum_cons]
    have ha : 0 ≤ a := h a (by simp)
    have ht : ∀ x ∈ t, 0 ≤ x := fun x hx => h x (by simp [hx])
    have hts : 0 ≤ t.sum := List.sum_nonneg ht
    have ih := sum_map_sq_le_sq_sum t ht
    nlinarith [mul_nonneg ha hts]

/-- Dividing every element of a list divides its sum. -/
theorem sum_map_div (l : List ℚ) (c : ℚ) :
    (l.map (fun x => x / c)).sum = l.sum / c := by
  induction l with
  | nil => simp
  | cons a t ih => simp [ih, add_div]

/-- The classification chain of `concentration_bucket`, as three exact
threshold characterisations. -/
theorem concentration_bucket_spec (q : ℚ) :
    ((concentration_bucket q = "high") ↔ 1/4 < q) ∧
    ((concentration_bucket q = "medium") ↔ (3/20 < q ∧ q ≤ 1/4)) ∧
    ((concentration_bucket q = "low") ↔ q ≤ 3/20) := by
  by_cases h1 : 1/4 < q
  · have hb : concentration_bucket q = "high" := by
      rw [concentration_bucket, if_pos h1]
    rw [hb]
    refine ⟨⟨fun _ => h1, fun _ => rfl⟩, ?_, ?_⟩
    · constructor
      · intro hx; exact absurd hx (by decide)
      · rintro ⟨-, h4⟩; exact absurd h4 (not_le.mpr h1)
    · constructor
      · intro hx; exact absurd hx (by decide)
      · intro h4; exact absurd h4 (not_le.mpr (by linarith))
  · by_cases h2 : 3/20 < q
    · have hb : concentration_bucket q = "medium" := by
        rw [concentration_bucket, if_neg h1, if_pos h2]
      rw [hb]
      refine ⟨?_, ⟨fun _ => ⟨h2, not_lt.mp h1⟩, fun _ => rfl⟩, ?_⟩
      · constructor
        · intro hx; exact absurd hx (by decide)
        · intro h4; exact absurd h4 h1
      · constructor
        · intro hx; exact absurd hx (by decide)
        · intro h4; exact absurd h4 (not_le.mpr h2)
    · have hb : concentration_bucket q = "low" := by
        rw [concentration_bucket, if_neg h1, if_neg h2]
      rw [hb]
      refine ⟨?_, ?_, ⟨fun _ => not_lt.mp h2, fun _ => rfl⟩⟩
      · constructor
        · intro hx; exact absurd hx (by decide)
        · intro h4; exact absurd h4 h1
      · constructor
        · intro hx; exact absurd hx (by decide)
        · rintro ⟨h4, -⟩; exact absurd h4 h2

/-- C3 (amended): for a nonempty portfolio of positions with positive market
values and pairwise-distinct symbols, `calculate_concentration_risk` succeeds;
its Herfindahl index is the sum of the squared position weights and lies in
[0, 1]; the diversification score is one minus it; the bucket is "high" exactly
above 1/4, "medium" exactly on (3/20, 1/4], "low" exactly at or below 3/20; and
`N` equal-weighted positions give index `1/N`. -/
theorem concentration_risk_correct (ps : List Position) (hne : ps ≠ [])
    (hpos : ∀ p ∈ ps, 0 < p.market_value)
    (hnd : (ps.map Position.symbol).Nodup) :
    ∃ r, calculate_concentration_risk ps = Except.ok r ∧
      r.herfindahl_index = spec_sum_squared_weights ps ∧
      0 ≤ r.herfindahl_index ∧ r.herfindahl_index ≤ 1 ∧
      r.diversification_score = 1 - r.herfindahl_index ∧
      ((r.concentration_risk = "high") ↔ 1/4 < r.herfindahl_index) ∧
      ((r.concentration_risk = "medium") ↔
        (3/20 < r.herfindahl_index ∧ r.herfindahl_index ≤ 1/4)) ∧
      ((r.concentration_risk = "low") ↔ r.herfindahl_index ≤ 3/20) ∧
      (∀ V, (∀ p ∈ ps, p.market_value = V) →
        r.herfindahl_index = 1 / (ps.length : ℚ)) := by
  have htotpos : 0 < total_value ps := by
    rw [total_value]
    apply List.sum_pos
    · intro x hx
      rcases List.mem_map.mp hx with ⟨p, hp, rfl⟩
      exact hpos p hp
    · simpa using hne
  have hie : ¬ (ps.isEmpty = true) := by
    cases ps with
    | nil => exact absurd rfl hne
    | cons a t => simp
  have hconc : stock_concentration ps =
      ps.map (fun p => (p.symbol, p.market_value / total_value ps)) := by
    have h := foldl_dict_update_nodup (fun p => p.market_value / total_value ps) ps []
      (by intro p hp e he; exact absurd he (List.not_mem_nil e)) hnd
    simpa [stock_concentration] using h
  have hres : calculate_concentration_risk ps = Except.ok
      ⟨concentration_bucket (((stock_concentration ps).map (fun p => p.2 ^ 2)).sum),
        ((stock_concentration ps).map (fun p => p.2 ^ 2)).sum,
        listMaxQ ((stock_concentration ps).map Prod.snd),
        1 - ((stock_concentration ps).map (fun p => p.2 ^ 2)).sum⟩ := by
    rw [calculate_concentration_risk, if_neg hie, if_neg htotpos.ne']
  have hspec : ((stock_concentration ps).map (fun p => p.2 ^ 2)).sum =
      spec_sum_squared_weights ps := by
    rw [hconc, spec_sum_squared_weights, List.map_map]
    rfl
  have hwnn : ∀ x ∈ ps.map (fun p => p.market_value / total_value ps), 0 ≤ x := by
    intro x hx
    rcases List.mem_map.mp hx with ⟨p, hp, rfl⟩
    exact div_nonneg (le_of_lt (hpos p hp)) htotpos.le
  have hwsum : (ps.map (fun p => p.market_value / total_value ps)).sum = 1 := by
    have hmm : ps.map (fun p => p.market_value / total_value ps) =
        (ps.map Position.market_value).map (fun x => x / total_value ps) := by
      rw [List.map_map]
      rfl
    have htv : (ps.map Position.market_value).sum = total_value ps := rfl
    rw [hmm, sum_map_div, htv, div_self htotpos.ne']
  have hspec_nn : 0 ≤ spec_sum_squared_weights ps := by
    rw [spec_sum_squared_weights]
    apply List.sum_nonneg
    intro x hx
    rcases List.mem_map.mp hx with ⟨p, hp, rfl⟩
    positivity
  have hspec_le : spec_sum_squared_weights ps ≤ 1 := by
    have h1 : spec_sum_squared_weights ps =
        ((ps.map (fun p => p.market_value / total_value ps)).map (fun x => x ^ 2)).sum := by
      rw [spec_sum_squared_weights, List.map_map]
      rfl
    rw [h1]
    calc ((ps.map (fun p => p.market_value / total_value ps)).map (fun x => x ^ 2)).sum
        ≤ ((ps.map (fun p => p.market_value / total_value ps)).sum) ^ 2 :=
          sum_map_sq_le_sq_sum _ hwnn
      _ = 1 := by rw [hwsum]; norm_num
  have hequal : ∀ V, (∀ p ∈ ps, p.market_value = V) →
      spec_sum_squared_weights ps = 1 / (ps.length : ℚ) := by
    intro V hV
    obtain ⟨p0, hp0⟩ := List.exists_mem_of_ne_nil ps hne
    have hVpos : 0 < V := hV p0 hp0 ▸ hpos p0 hp0
    have hlen : 0 < ps.length := List.length_pos.mpr hne
    have hlenQ : ((ps.length : ℚ)) ≠ 0 := by
      have : (0 : ℚ) < (ps.length : ℚ) := by exact_mod_cast hlen
      exact this.ne'
    have hmv : ps.map Position.market_value = List.replicate ps.length V := by
      apply List.eq_replicate_iff.mpr
      refine ⟨by simp, ?_⟩
      intro b hb
      rcases List.mem_map.mp hb with ⟨p, hp, rfl⟩
      exact hV p hp
    have htot : total_value ps = (ps.length : ℚ) * V := by
      rw [total_value, hmv, List.sum_replicate, nsmul_eq_mul]
    have hterm : ∀ p ∈ ps, (p.market_value / total_value ps) ^ 2 =
        (1 / (ps.length : ℚ)) ^ 2 := by
      intro p hp
      rw [hV p hp, htot]
      rw [show V / ((ps.length : ℚ) * V) = 1 / (ps.length : ℚ) by
        rw [mul_comm]
        field_simp]
    have hmapc : ps.map (fun p => (p.market_value / total_value ps) ^ 2) =
        ps.map (fun _ => (1 / (ps.length : ℚ)) ^ 2) := List.map_congr_left hterm
    have hrep : ps.map (fun _ => (1 / (ps.length : ℚ)) ^ 2) =
        List.replicate ps.length ((1 / (ps.length : ℚ)) ^ 2) := by
      apply List.eq_replicate_iff.mpr
      refine ⟨by simp, ?_⟩
      intro b hb
      rcases List.mem_map.mp hb with ⟨p, hp, h⟩
      exact h.symm
    rw [spec_sum_squared_weights, hmapc, hrep, List.sum_replicate, nsmul_eq_mul]
    field_simp
    ring
  rw [hspec] at hres
  refine ⟨_, hres, rfl, hspec_nn, hspec_le, rfl, ?_, ?_, ?_, ?_⟩
  · exact (concentration_bucket_spec (spec_sum_squared_weights ps)).1
  · exact (concentration_bucket_spec (spec_sum_squared_weights ps)).2.1
  · exact (concentration_bucket_spec (spec_sum_squared_weights ps)).2.2
  · intro V hV
    exact hequal V hV

/-- C3 witness: four equal $25k positions of a $100k portfolio evaluate to a
Herfindahl index of exactly 1/4, classified "medium", with diversification
score 3/4; the amended theorem instantiated there. -/
theorem concentration_risk_witness :
    (calculate_concentration_risk fourEqualPositions =
      Except.ok ⟨"medium", 1/4, 1/4, 3/4⟩) ∧
    (∃ r, calculate_concentration_risk fourEqualPositions = Except.ok r ∧
      r.herfindahl_index = spec_sum_squared_weights fourEqualPositions ∧
      0 ≤ r.herfindahl_index ∧ r.herfindahl_index ≤ 1 ∧
      r.diversification_score = 1 - r.herfindahl_index ∧
      ((r.concentration_risk = "high") ↔ 1/4 < r.herfindahl_index) ∧
      ((r.concentration_risk = "medium") ↔
        (3/20 < r.herfindahl_index ∧ r.herfindahl_index ≤ 1/4)) ∧
      ((r.concentration_risk = "low") ↔ r.herfindahl_index ≤ 3/20) ∧
      (∀ V, (∀ p ∈ fourEqualPositions, p.market_value = V) →
        r.herfindahl_index = 1 / (fourEqualPositions.length : ℚ))) := by
  constructor
  · simp [fourEqualPositions, calculate_concentration_risk, stock_concentration,
      dict_update, total_value, concentration_bucket, listMaxQ]
    norm_num
  · refine concentration_risk_correct fourEqualPositions (by simp [fourEqualPositions])
      ?_ ?_
    · intro p hp
      simp only [fourEqualPositions, List.mem_cons, List.not_mem_nil, or_false] at hp
      rcases hp with h | h | h | h <;> subst h <;> norm_num
    · simp [fourEqualPositions]

/-- C3 counterexample: a portfolio holding the same symbol in two positions of
positive market value. The source's symbol-keyed dict collapses them, so the
returned Herfindahl index is 1/4 while the sum of squared position weights is
1/2: the claimed equality fails. -/
theorem herfindahl_differs_from_sum_of_squared_weights :
    calculate_concentration_risk dupPositions = Except.ok ⟨"medium", 1/4, 1/2, 3/4⟩ ∧
    spec_sum_squared_weights dupPositions = 1/2 ∧ ((1/4 : ℚ) ≠ 1/2) := by
  refine ⟨?_, ?_, by norm_num⟩
  · simp [dupPositions, calculate_concentration_risk, stock_concentration,
      dict_update, total_value, concentration_bucket, listMaxQ]
    norm_num
  · simp [dupPositions, spec_sum_squared_weights, total_value]
    norm_num

/-! ## Claim C4: degenerate denominators -/

/-- C4 (amended): degenerate denominators are not guarded. A zero 20-day average
volume makes `detect_volume_anomalies` raise `ZeroDivisionError` (embedded as
`Except.error CalcError.divByZero`), a zero total portfolio value makes
`calculate_concentration_risk` raise it, and an empty portfolio raises
`ValueError` at `max()`: the numeric exception escapes; no explicit "undefined"
result is produced. -/
theorem degenerate_denominators_raise (data : List PricePoint) (ps : List Position)
    (hlen : 2 ≤ data.length) (havg : calculate_avg_volume data 20 = 0)
    (hne : ps ≠ []) (htot : total_value ps = 0) :
    detect_volume_anomalies data = Except.error CalcError.divByZero ∧
    calculate_concentration_risk ps = Except.error CalcError.divByZero ∧
    calculate_concentration_risk [] = Except.error CalcError.emptyMax := by
  refine ⟨?_, ?_, rfl⟩
  · rw [detect_volume_anomalies, if_neg (by omega), if_pos havg]
  · have hie : ¬ (ps.isEmpty = true) := by
      cases ps with
      | nil => exact absurd rfl hne
      | cons a t => simp
    rw [calculate_concentration_risk, if_neg hie, if_pos htot]

/-- C4 witness: the amended theorem instantiated at a two-session series of zero
volumes and a single position of zero market value. -/
theorem degenerate_denominators_raise_witness :
    detect_volume_anomalies zeroVolumeSeries = Except.error CalcError.divByZero ∧
    calculate_concentration_risk [⟨"ANY", 0⟩] = Except.error CalcError.divByZero ∧
    calculate_concentration_risk [] = Except.error CalcError.emptyMax :=
  degenerate_denominators_raise zeroVolumeSeries [⟨"ANY", 0⟩]
    (by norm_num [zeroVolumeSeries])
    (by norm_num [zeroVolumeSeries, calculate_avg_volume])
    (by simp)
    (by norm_num [total_value])

/-- C4 counterexample: on the two-session series of zero volumes the 20-day
average volume is zero, and `detect_volume_anomalies` lets the division error
escape instead of yielding an explicit "undefined" result; likewise
`calculate_concentration_risk` on a portfolio of zero total value. -/
theorem degenerate_denominator_not_guarded :
    calculate_avg_volume zeroVolumeSeries 20 = 0 ∧
    detect_volume_anomalies zeroVolumeSeries = Except.error CalcError.divByZero ∧
    calculate_concentration_risk [⟨"A", 0⟩] = Except.error CalcError.divByZero := by
  have h1 : calculate_avg_volume zeroVolumeSeries 20 = 0 := by
    norm_num [zeroVolumeSeries, calculate_avg_volume]
  refine ⟨h1, ?_, ?_⟩
  · rw [detect_volume_anomalies, if_neg (by norm_num [zeroVolumeSeries]), if_pos h1]
  · rw [calculate_concentration_risk, if_neg (by simp),
      if_pos (by norm_num [total_value])]

/-! ## Claim C5: volume surge detection -/

/-- C5: on a series of at least two sessions whose 20-day average volume and
previous close are nonzero, `detect_volume_anomalies` succeeds and emits a
`volume_surge_up` opportunity exactly when the volume ratio exceeds 3 and the
same-day return exceeds 5%, with strength "strong" exactly when the ratio
exceeds 5 and "moderate" otherwise; in particular the 25-session scenario with a
final volume of 4 times the 20-day average and a +6% return yields one
"moderate" opportunity, and 6 times yields "strong". -/
theorem volume_surge_detection (data : List PricePoint)
    (hlen : 2 ≤ data.length)
    (havg : calculate_avg_volume data 20 ≠ 0)
    (hprev : (data.map PricePoint.close).getD (data.length - 2) 0 ≠ 0) :
    (∃ l, detect_volume_anomalies data = Except.ok l ∧
      ((∃ o ∈ l, o.otype = "volume_surge_up") ↔
        (3 < volume_ratio data ∧ 1/20 < price_change data)) ∧
      (∀ o ∈ l, o.otype = "volume_surge_up" ∧
        ((o.strength = "strong") ↔ 5 < volume_ratio data) ∧
        ((o.strength = "moderate") ↔ volume_ratio data ≤ 5))) ∧
    detect_volume_anomalies surge4Series =
      Except.ok [⟨"volume_surge_up", "moderate", 4, 3/50⟩] ∧
    detect_volume_anomalies surge6Series =
      Except.ok [⟨"volume_surge_up", "strong", 6, 3/50⟩] := by
  refine ⟨?_, ?_, ?_⟩
  · rw [detect_volume_anomalies, if_neg (by omega), if_neg havg, if_neg hprev]
    by_cases hc : 3 < volume_ratio data ∧ 1/20 < price_change data
    · rw [if_pos hc]
      refine ⟨_, rfl, ⟨fun _ => hc, fun _ => ⟨_, List.mem_singleton_self _, rfl⟩⟩, ?_⟩
      intro o ho
      have hoe := List.mem_singleton.mp ho
      subst hoe
      refine ⟨rfl, ?_, ?_⟩
      · by_cases h5 : 5 < volume_ratio data
        · rw [if_pos h5]
          exact ⟨fun _ => h5, fun _ => rfl⟩
        · rw [if_neg h5]
          exact ⟨fun hx => absurd hx (by simp), fun hx => absurd hx h5⟩
      · by_cases h5 : 5 < volume_ratio data
        · rw [if_pos h5]
          exact ⟨fun hx => absurd hx (by simp), fun hx => absurd hx (not_le.mpr h5)⟩
        · rw [if_neg h5]
          exact ⟨fun _ => not_lt.mp h5, fun _ => rfl⟩
    · rw [if_neg hc]
      refine ⟨[], rfl, ?_, by simp⟩
      constructor
      · rintro ⟨o, ho, -⟩
        exact absurd ho (List.not_mem_nil o)
      · intro h
        exact absurd h hc
  · norm_num [surge4Series, detect_volume_anomalies, calculate_avg_volume,
      volume_ratio, price_change, List.replicate]
  · norm_num [surge6Series, detect_volume_anomalies, calculate_avg_volume,
      volume_ratio, price_change, List.replicate]

/-- C5 witness: the scenario part of the theorem, its hypotheses discharged at
the concrete 25-session series with a 4× final volume. -/
theorem volume_surge_detection_witness :
    detect_volume_anomalies surge4Series =
      Except.ok [⟨"volume_surge_up", "moderate", 4, 3/50⟩] :=
  (volume_surge_detection surge4Series
    (by norm_num [surge4Series])
    (by norm_num [surge4Series, calculate_avg_volume, List.replicate])
    (by norm_num [surge4Series, List.replicate])).2.1

/-! ## Claim C6: default alert rules -/

/-- C6: under the default rule set, `check_risk_alerts` emits a `price_drop`
alert of severity "high" exactly when the day-over-day return is at most −0.15,
and a `volatility_spike` alert of severity "medium" exactly when the current
volatility exceeds 3 times its 20-day baseline average; a −0.20 return fires the
price alert and a −0.10 return does not. -/
theorem default_alert_rules_behavior (price_change_v current_vol avg_vol : ℚ) :
    ((⟨"price_drop", "high"⟩ : Alert) ∈
        check_risk_alerts load_default_rules price_change_v current_vol avg_vol ↔
      price_change_v ≤ -(3/20)) ∧
    ((⟨"volatility_spike", "medium"⟩ : Alert) ∈
        check_risk_alerts load_default_rules price_change_v current_vol avg_vol ↔
      avg_vol * 3 < current_vol) ∧
    (⟨"price_drop", "high"⟩ : Alert) ∈
      check_risk_alerts load_default_rules (-(1/5)) current_vol avg_vol ∧
    (⟨"price_drop", "high"⟩ : Alert) ∉
      check_risk_alerts load_default_rules (-(1/10)) current_vol avg_vol := by
  have key : ∀ pc cv av : ℚ,
      ((⟨"price_drop", "high"⟩ : Alert) ∈
          check_risk_alerts load_default_rules pc cv av ↔ pc ≤ -(3/20)) ∧
      ((⟨"volatility_spike", "medium"⟩ : Alert) ∈
          check_risk_alerts load_default_rules pc cv av ↔ av * 3 < cv) := by
    intro pc cv av
    by_cases h1 : pc ≤ -(3/20) <;> by_cases h2 : av * 3 < cv <;>
      simp [check_risk_alerts, load_default_rules, h1, h2, Alert.mk.injEq]
  refine ⟨(key _ _ _).1, (key _ _ _).2, ?_, ?_⟩
  · exact (key _ _ _).1.mpr (by norm_num)
  · intro hm
    have h := (key (-(1/10)) current_vol avg_vol).1.mp hm
    norm_num at h

/-! ## Claim C7: oversold/overbought detection -/

/-- C7 (amended): the detector emits an `oversold_bounce` opportunity exactly
when RSI < 30 and the latest close is at or below the lower Bollinger band, and
it never emits an `overbought_pullback` opportunity — the source has no
overbought branch. -/
theorem oversold_detector_behavior (rsi : ℚ) (bands : BollingerBands)
    (current_price : ℚ) :
    ((∃ o ∈ detect_oversold_overbought_opportunities rsi bands current_price,
        o.otype = "oversold_bounce") ↔
      (rsi < 30 ∧ current_price ≤ bands.lower_band)) ∧
    (∀ o ∈ detect_oversold_overbought_opportunities rsi bands current_price,
      o.otype ≠ "overbought_pullback") := by
  rw [detect_oversold_overbought_opportunities]
  by_cases hc : rsi < 30 ∧ current_price ≤ bands.lower_band
  · rw [if_pos hc]
    refine ⟨⟨fun _ => hc, fun _ => ⟨_, List.mem_singleton_self _, rfl⟩⟩, ?_⟩
    intro o ho
    have hoe := List.mem_singleton.mp ho
    subst hoe
    simp
  · rw [if_neg hc]
    refine ⟨?_, by simp⟩
    constructor
    · rintro ⟨o, ho, -⟩
      exact absurd ho (List.not_mem_nil o)
    · intro h
      exact absurd h hc

/-- C7 counterexample: an overbought snapshot — RSI 80 > 70 and a close of 120
at or above the upper band 110 — produces no opportunity at all, so in
particular no `overbought_pullback`. -/
theorem overbought_pullback_never_emitted :
    (70 : ℚ) < 80 ∧
    (BollingerBands.mk 110 100 90).upper_band ≤ 120 ∧
    detect_oversold_overbought_opportunities 80 (BollingerBands.mk 110 100 90) 120 =
      [] := by
  refine ⟨by norm_num, by norm_num [BollingerBands.upper_band], ?_⟩
  rw [detect_oversold_overbought_opportunities, if_neg]
  rintro ⟨h, -⟩
  norm_num at h

/-! ## Claim C8: option volatility detection -/

/-- C8 (amended): the detector emits an `iv_undervalued` opportunity exactly
when the chain's average implied volatility is below 0.8 times the 30-day
historical volatility, and it never emits an `iv_overvalued` opportunity — the
source has no overvalued branch. -/
theorem option_volatility_detector_behavior (iv_skew avg_iv historical_vol : ℚ) :
    ((∃ o ∈ detect_option_volatility_opportunities iv_skew avg_iv historical_vol,
        o.otype = "iv_undervalued") ↔ avg_iv < historical_vol * (4/5)) ∧
    (∀ o ∈ detect_option_volatility_opportunities iv_skew avg_iv historical_vol,
      o.otype ≠ "iv_overvalued") := by
  rw [detect_option_volatility_opportunities]
  by_cases hc : avg_iv < historical_vol * (4/5)
  · rw [if_pos hc]
    refine ⟨⟨fun _ => hc, fun _ => ⟨_, List.mem_singleton_self _, rfl⟩⟩, ?_⟩
    intro o ho
    have hoe := List.mem_singleton.mp ho
    subst hoe
    simp
  · rw [if_neg hc]
    refine ⟨?_, by simp⟩
    constructor
    · rintro ⟨o, ho, -⟩
      exact absurd ho (List.not_mem_nil o)
    · intro h
      exact absurd h hc

/-- C8 counterexample: an average implied volatility of 2 against a historical
volatility of 1 — the inverse of the undervaluation ratio, 2 > 1/0.8 — produces
no opportunity at all, so in particular no `iv_overvalued`. -/
theorem iv_overvalued_never_emitted :
    (1 : ℚ) / (4/5) < 2 ∧
    detect_option_volatility_opportunities 0 2 1 = [] := by
  refine ⟨by norm_num, ?_⟩
  rw [detect_option_volatility_opportunities, if_neg]
  intro h
  norm_num at h

/-! ## Claim C9: cache single-flight -/

/-- C9 (amended): the get-then-compute-then-set pattern of the source provides
no single-flight deduplication. A caller whose read hits a populated cache
returns the cached value with no computation; but two concurrent callers that
both read before either writes each execute the underlying computation — two
executions for one key, though both callers end with the same (deterministic)
value. -/
theorem cache_get_or_compute_behavior (v x : ℕ) :
    runCache v ⟨some x, [⟨0, none⟩], 0⟩ [CacheStep.read 0] =
      ⟨some x, [⟨2, some x⟩], 0⟩ ∧
    runCache v ⟨none, [⟨0, none⟩, ⟨0, none⟩], 0⟩
      [CacheStep.read 0, CacheStep.read 1,
        CacheStep.computeWrite 0, CacheStep.computeWrite 1] =
      ⟨some v, [⟨2, some v⟩, ⟨2, some v⟩], 2⟩ :=
  ⟨rfl, rfl⟩

/-- C9 counterexample: under the read-read-compute-compute interleaving of two
callers on an empty cache, the underlying computation executes twice, not once
(both callers do observe the same value 7). -/
theorem single_flight_violated :
    (runCache 7 ⟨none, [⟨0, none⟩, ⟨0, none⟩], 0⟩
      [CacheStep.read 0, CacheStep.read 1,
        CacheStep.computeWrite 0, CacheStep.computeWrite 1]).computations = 2 ∧
    (runCache 7 ⟨none, [⟨0, none⟩, ⟨0, none⟩], 0⟩
      [CacheStep.read 0, CacheStep.read 1,
        CacheStep.computeWrite 0, CacheStep.computeWrite 1]).callers =
      [⟨2, some 7⟩, ⟨2, some 7⟩] ∧
    (2 : ℕ) ≠ 1 := by
  refine ⟨rfl, rfl, by decide⟩

/-! ## Claim C10: frontend portfolio statistics -/

/-- C10: `calculatePortfolioStats` returns zeros on the empty asset list through
its explicit early return, and on every nonempty list returns the arithmetic
means of `current_price`, `change` and `change_percent`. -/
theorem portfolio_stats_means (assets : List AssetRow) :
    calculatePortfolioStats [] = ⟨0, 0, 0⟩ ∧
    (assets ≠ [] → calculatePortfolioStats assets =
      ⟨(assets.map AssetRow.current_price).sum / (assets.length : ℚ),
        (assets.map AssetRow.change).sum / (assets.length : ℚ),
        (assets.map AssetRow.change_percent).sum / (assets.length : ℚ)⟩) := by
  refine ⟨rfl, ?_⟩
  intro hne
  rw [calculatePortfolioStats, if_neg (fun h => hne (List.length_eq_zero.mp h))]
